import Mathlib

/-!
Shallow embedding of `src/kam1k4dze/utools/cstring_obfuscator.hpp`.

Characters are modelled as their bit patterns: natural numbers below `2 ^ w`,
where `w` is the bit width of the character type (`8` for `char`, `16` or `32`
for `wchar_t`).  A C array of `N` characters is modelled as a function
`Fin N → Nat`.  C++ `unsigned long long` arithmetic is `Nat` arithmetic with
an explicit `% 2 ^ 64`; the integer promotions and the truncation of an `int`
result stored back into a character are the explicit `% 2 ^ w` reductions.
-/

namespace crypt

/-- Default value of the `TBX_XSTR_SEED` macro (`3421ull`). -/
def TBX_XSTR_SEED : Nat := 3421

/-- `linear_congruent_generator` from the header, parametrised by the seed.
The C++ body is
`1013904223ull + (1664525ull * (rounds > 0 ? lcg(rounds-1) : SEED)) % 0xFFFFFFFF`;
by precedence the `% 0xFFFFFFFF` applies to the product only, and the whole
expression lives in 64-bit unsigned arithmetic. -/
def linear_congruent_generator (seed : Nat) : Nat → Nat
  | 0 => (1013904223 + ((1664525 * seed) % 2 ^ 64) % 0xFFFFFFFF) % 2 ^ 64
  | rounds + 1 =>
      (1013904223 +
          ((1664525 * linear_congruent_generator seed rounds) % 2 ^ 64) % 0xFFFFFFFF) % 2 ^ 64

/-- The `XSTR_RANDOM_NUMBER(Min, Max)` macro: `Min + (Random() % (Max - Min + 1))`
with `Random()` expanding to `linear_congruent_generator(10)`. -/
def XSTR_RANDOM_NUMBER (seed Min Max : Nat) : Nat :=
  Min + (linear_congruent_generator seed 10) % (Max - Min + 1)

/-- The derived key as a function of the seed: `XSTR_RANDOM_NUMBER(0, 0xFF)`. -/
def XORKEY_of (seed : Nat) : Nat := XSTR_RANDOM_NUMBER seed 0 0xFF

/-- `XORKEY`, the build-time constant for the default seed. -/
def XORKEY : Nat := XORKEY_of TBX_XSTR_SEED

/-- `encrypt_character<Char>(character, index)`:
`character ^ (static_cast<Char>(XORKEY) + index)`.  The cast truncates the key
to the character width; the addition and the XOR happen after integer
promotion, and the result is truncated back to the character width when stored
in a `Char`.  `key` is the `XORKEY` constant, kept as a parameter. -/
def encrypt_character (w key character index : Nat) : Nat :=
  (character ^^^ (key % 2 ^ w + index)) % 2 ^ w

/-- The `Xor_string<size, Char>` constructor: element `i` of `_string` is
`encrypt_character<Char>(string[i], i)`, for every `i < size` (the loop runs
over all `size` elements, terminator included). -/
def Xor_string_mk (w key N : Nat) (string : Fin N → Nat) : Fin N → Nat :=
  fun i => encrypt_character w key (string i) (i : Nat)

/-- `Xor_string::decrypt()`: for `t < _nb_chars = size - 1` it stores
`string[t] ^ (static_cast<Char>(XORKEY) + t)` back into the buffer, then writes
the terminator `'\0'` at index `_nb_chars`. -/
def Xor_string_decrypt (w key N : Nat) (string : Fin N → Nat) : Fin N → Nat :=
  fun t =>
    if (t : Nat) < N - 1 then (string t ^^^ (key % 2 ^ w + (t : Nat))) % 2 ^ w else 0

/-- Modelled from the spec (for comparison with the code): the spec's stated
recurrence `state₀ = seed`, `stateₙ = (1013904223 + 1664525 × stateₙ₋₁) mod 0xFFFFFFFF`,
whose output after `rounds` iterations the spec claims is the generator output. -/
def spec_lcg_state (seed : Nat) : Nat → Nat
  | 0 => seed
  | n + 1 => (1013904223 + 1664525 * spec_lcg_state seed n) % 0xFFFFFFFF

/-- The recurrence the code actually iterates, with `mod 0xFFFFFFFF` applied to
the product only and 64-bit wrap-around: `state₀ = seed`,
`stateₙ = (1013904223 + ((1664525 × stateₙ₋₁) mod 2⁶⁴) mod 0xFFFFFFFF) mod 2⁶⁴`. -/
def code_lcg_state (seed : Nat) : Nat → Nat
  | 0 => seed
  | n + 1 =>
      (1013904223 + ((1664525 * code_lcg_state seed n) % 2 ^ 64) % 0xFFFFFFFF) % 2 ^ 64

end crypt

namespace crypt

/-! ### Helper lemmas -/

/-- Truncation to `w` bits commutes with XOR. -/
theorem xor_mod_two_pow (x y w : Nat) :
    (x ^^^ y) % 2 ^ w = x % 2 ^ w ^^^ y % 2 ^ w := by
  apply Nat.eq_of_testBit_eq
  intro i
  by_cases h : i < w <;>
    simp [Nat.testBit_mod_two_pow, Nat.testBit_xor, h]

/-- Reducing the key before adding the index does not change the truncated mask. -/
theorem mask_mod (key i w : Nat) :
    (key % 2 ^ w + i) % 2 ^ w = (key + i) % 2 ^ w :=
  (Nat.mod_modEq key (2 ^ w)).add_right i

/-- An encrypted character fits in the character width. -/
theorem encrypt_character_lt (w key c i : Nat) : encrypt_character w key c i < 2 ^ w :=
  Nat.mod_lt _ (Nat.two_pow_pos w)

/-- For an in-range character the transform is XOR with the truncated mask
`(key + index) mod 2 ^ w`. -/
theorem encrypt_character_eq (w key c i : Nat) (h : c < 2 ^ w) :
    encrypt_character w key c i = c ^^^ (key + i) % 2 ^ w := by
  rw [encrypt_character, xor_mod_two_pow, Nat.mod_eq_of_lt h, mask_mod]

/-- Applying the decrypt step to an encrypted in-range character recovers it. -/
theorem decrypt_step (w key c i : Nat) (h : c < 2 ^ w) :
    (encrypt_character w key c i ^^^ (key % 2 ^ w + i)) % 2 ^ w = c := by
  rw [xor_mod_two_pow, Nat.mod_eq_of_lt (encrypt_character_lt w key c i),
    encrypt_character, xor_mod_two_pow, Nat.xor_assoc, Nat.xor_self, Nat.xor_zero,
    Nat.mod_eq_of_lt h]

/-- XOR with a nonzero value moves every point. -/
theorem xor_ne_self (a t : Nat) (h : t ≠ 0) : a ^^^ t ≠ a := by
  intro hEq
  apply h
  have h0 : a ^^^ (a ^^^ t) = t := by
    rw [← Nat.xor_assoc, Nat.xor_self, Nat.zero_xor]
  rw [hEq, Nat.xor_self] at h0
  exact h0.symm

/-- Reading `decrypt`'s buffer below the terminator index. -/
theorem decrypt_at (w key N : Nat) (buf : Fin N → Nat) (i : Fin N)
    (hi : (i : Nat) < N - 1) :
    Xor_string_decrypt w key N buf i = (buf i ^^^ (key % 2 ^ w + (i : Nat))) % 2 ^ w := by
  simp [Xor_string_decrypt, hi]

/-- One step of the generator, in 64-bit arithmetic, is bounded by
`1013904223 + 0xFFFFFFFF`. -/
theorem lcg_bound_aux (y : Nat) :
    (1013904223 + (y % 2 ^ 64) % 0xFFFFFFFF) % 2 ^ 64 < 1013904223 + 0xFFFFFFFF := by
  have h1 : (y % 2 ^ 64) % 0xFFFFFFFF < 0xFFFFFFFF := Nat.mod_lt _ (by norm_num)
  have h2 : 1013904223 + (y % 2 ^ 64) % 0xFFFFFFFF < 2 ^ 64 := by omega
  rw [Nat.mod_eq_of_lt h2]
  omega

/-! ### The claims -/

/-- Claim C1 (round-trip): for every plaintext of fixed size `N` — `N - 1`
characters followed by a `0` terminator — whose characters fit the character
width, decrypting the buffer built by the constructor yields exactly the
original sequence. -/
theorem C1_roundtrip (w key N : Nat) (s : Fin N → Nat) (hN : 0 < N)
    (hlt : ∀ i, s i < 2 ^ w)
    (hterm : s ⟨N - 1, Nat.sub_lt hN Nat.one_pos⟩ = 0) :
    Xor_string_decrypt w key N (Xor_string_mk w key N s) = s := by
  funext i
  by_cases h : (i : Nat) < N - 1
  · rw [decrypt_at w key N _ i h]
    exact decrypt_step w key (s i) i (hlt i)
  · have h2 := i.isLt
    have hi : i = (⟨N - 1, Nat.sub_lt hN Nat.one_pos⟩ : Fin N) :=
      Fin.ext (show (i : Nat) = N - 1 by omega)
    rw [Xor_string_decrypt, if_neg h, hi, hterm]

/-- Witness for C1 at `w = 8`, `key = 184`, `s = "H"` (`[72, 0]`). -/
theorem C1_roundtrip_witness :
    Xor_string_decrypt 8 184 2 (Xor_string_mk 8 184 2 (fun i : Fin 2 => if (i : Nat) = 0 then 72 else 0)) =
      (fun i : Fin 2 => if (i : Nat) = 0 then 72 else 0) := by
  exact C1_roundtrip 8 184 2 (fun i : Fin 2 => if (i : Nat) = 0 then 72 else 0)
    (by decide) (by decide) (by decide)

/-- Claim C2, counterexample: at the default seed, the value of
`linear_congruent_generator(10)` is not the state reached by the spec's
recurrence `stateₙ = (1013904223 + 1664525 × stateₙ₋₁) mod 0xFFFFFFFF` after
`rounds = 10` iterations from `state₀ = seed`. -/
theorem C2_lcg_counterexample :
    linear_congruent_generator TBX_XSTR_SEED 10 ≠ spec_lcg_state TBX_XSTR_SEED 10 := by
  decide

/-- Claim C2, amended: the generator iterates
`stateₙ = (1013904223 + ((1664525 × stateₙ₋₁) mod 2 ^ 64) mod 0xFFFFFFFF) mod 2 ^ 64`
from `state₀ = seed` — the `mod 0xFFFFFFFF` applies to the product only — and
`linear_congruent_generator(rounds)` is the state after `rounds + 1`
applications, so the default `linear_congruent_generator(10)` is `state₁₁`. -/
theorem C2_lcg_amended (seed rounds : Nat) :
    linear_congruent_generator seed rounds = code_lcg_state seed (rounds + 1) := by
  induction rounds with
  | zero => rfl
  | succ n ih =>
      rw [linear_congruent_generator, ih]
      rfl

/-- Claim C3: element `i` of the constructed buffer holds
`plaintext[i] XOR ((DerivedKey + i) mod 2 ^ w)` — the key widened/truncated to
the character width `w` before the XOR — and the stored element again fits the
character width. -/
theorem C3_stored_transform (w key N : Nat) (s : Fin N → Nat) (i : Fin N)
    (h : s i < 2 ^ w) :
    Xor_string_mk w key N s i = s i ^^^ (key + (i : Nat)) % 2 ^ w ∧
      Xor_string_mk w key N s i < 2 ^ w :=
  ⟨encrypt_character_eq w key (s i) i h, encrypt_character_lt w key (s i) i⟩

/-- Witness for C3 at `w = 8`, `key = 184`, plaintext byte `72`, index `0`. -/
theorem C3_stored_transform_witness :
    Xor_string_mk 8 184 2 (fun _ => 72) 0 = 72 ^^^ (184 + ((0 : Fin 2) : Nat)) % 2 ^ 8 ∧
      Xor_string_mk 8 184 2 (fun _ => 72) 0 < 2 ^ 8 := by
  exact C3_stored_transform 8 184 2 (fun _ => 72) 0 (by decide)

/-- Claim C4: the first `decrypt()` writes the terminator: element `N - 1` of
the decrypted buffer is `0`, whatever value occupied that slot before. -/
theorem C4_terminator (w key N : Nat) (string : Fin N → Nat) (hN : 0 < N) :
    Xor_string_decrypt w key N string ⟨N - 1, Nat.sub_lt hN Nat.one_pos⟩ = 0 := by
  simp [Xor_string_decrypt]

/-- Witness for C4 at `w = 8`, `key = 184`, `N = 2`, arbitrary slot value `99`. -/
theorem C4_terminator_witness :
    Xor_string_decrypt 8 184 2 (fun _ => 99) ⟨1, Nat.one_lt_two⟩ = 0 := by
  exact C4_terminator 8 184 2 (fun _ => 99) Nat.zero_lt_two

/-- Claim C5: decrypting twice re-applies the key stream: at every index
`i < N - 1` the doubly-decrypted buffer holds
`plaintext[i] XOR ((DerivedKey + i) mod 2 ^ w)`, which differs from the
plaintext byte whenever that truncated mask is nonzero; both calls are
ordinary total functions, so the misuse is silent. -/
theorem C5_double_decrypt (w key N : Nat) (s : Fin N → Nat)
    (hlt : ∀ j, s j < 2 ^ w) (i : Fin N) (hi : (i : Nat) < N - 1) :
    Xor_string_decrypt w key N
        (Xor_string_decrypt w key N (Xor_string_mk w key N s)) i =
      s i ^^^ (key + (i : Nat)) % 2 ^ w ∧
    ((key + (i : Nat)) % 2 ^ w ≠ 0 →
      Xor_string_decrypt w key N
          (Xor_string_decrypt w key N (Xor_string_mk w key N s)) i ≠ s i) := by
  have hfirst : Xor_string_decrypt w key N (Xor_string_mk w key N s) i = s i := by
    rw [decrypt_at w key N _ i hi]
    exact decrypt_step w key (s i) i (hlt i)
  have hval : Xor_string_decrypt w key N
      (Xor_string_decrypt w key N (Xor_string_mk w key N s)) i =
      s i ^^^ (key + (i : Nat)) % 2 ^ w := by
    rw [decrypt_at w key N _ i hi, hfirst]
    exact encrypt_character_eq w key (s i) i (hlt i)
  refine ⟨hval, fun hm => ?_⟩
  rw [hval]
  exact xor_ne_self (s i) _ hm

/-- Witness for C5 at `w = 8`, `key = 184`, plaintext byte `72`, index `0`:
the mask `184` is nonzero, so the twice-decrypted byte is corrupted. -/
theorem C5_double_decrypt_witness :
    Xor_string_decrypt 8 184 2
        (Xor_string_decrypt 8 184 2 (Xor_string_mk 8 184 2 (fun _ => 72))) 0 =
      72 ^^^ (184 + ((0 : Fin 2) : Nat)) % 2 ^ 8 ∧
    ((184 + ((0 : Fin 2) : Nat)) % 2 ^ 8 ≠ 0 →
      Xor_string_decrypt 8 184 2
          (Xor_string_decrypt 8 184 2 (Xor_string_mk 8 184 2 (fun _ => 72))) 0 ≠ 72) := by
  exact C5_double_decrypt 8 184 2 (fun _ => 72) (by decide) 0 (by decide)

/-- Claim C6: for a non-empty plaintext that is not an all-zero run, the
stored byte differs from the plaintext byte at every index `i < N - 1` where
`(DerivedKey + i) mod 256 ≠ 0` (narrow 8-bit characters). -/
theorem C6_nontrivial (key N : Nat) (s : Fin N → Nat) (hlt : ∀ j, s j < 2 ^ 8)
    (hne : 0 < N) (hnz : ∃ j, s j ≠ 0) (i : Fin N) (hi : (i : Nat) < N - 1)
    (hmask : (key + (i : Nat)) % 256 ≠ 0) :
    Xor_string_mk 8 key N s i ≠ s i := by
  have hmk : Xor_string_mk 8 key N s i = s i ^^^ (key + (i : Nat)) % 2 ^ 8 :=
    encrypt_character_eq 8 key (s i) i (hlt i)
  have h256 : (2 : Nat) ^ 8 = 256 := by norm_num
  rw [hmk, h256]
  exact xor_ne_self (s i) _ hmask

/-- Witness for C6 at `key = 184`, plaintext `[72, 0]`, index `0`:
`(184 + 0) mod 256 = 184 ≠ 0` and the stored byte differs from `72`. -/
theorem C6_nontrivial_witness :
    Xor_string_mk 8 184 2 (fun i : Fin 2 => if (i : Nat) = 0 then 72 else 0) 0 ≠ 72 := by
  exact C6_nontrivial 184 2 (fun i : Fin 2 => if (i : Nat) = 0 then 72 else 0)
    (by decide) (by decide) ⟨0, by decide⟩ 0 (by decide) (by decide)

/-- Claim C7: for every seed, the derived key
`0 + (generator_output mod (255 - 0 + 1))` lies in `[0, 255]`. -/
theorem C7_key_range (seed : Nat) : XORKEY_of seed ≤ 255 := by
  have h := Nat.mod_lt (linear_congruent_generator seed 10)
    (show 0 < 0xFF - 0 + 1 by norm_num)
  simp only [XORKEY_of, XSTR_RANDOM_NUMBER] at h ⊢
  omega

/-- Claim C8 (determinism): key derivation and build-time encryption are pure
functions of their inputs — equal seeds yield the same derived key on any two
invocations, and equal seeds with pointwise-equal plaintexts yield
bit-identical ciphertext buffers. -/
theorem C8_deterministic (w N seed seed' : Nat) (s s' : Fin N → Nat)
    (hseed : seed = seed') (hs : ∀ i, s i = s' i) :
    XORKEY_of seed = XORKEY_of seed' ∧
      Xor_string_mk w (XORKEY_of seed) N s = Xor_string_mk w (XORKEY_of seed') N s' := by
  subst hseed
  refine ⟨rfl, funext fun i => ?_⟩
  simp only [Xor_string_mk, hs i]

/-- Witness for C8 at the default seed with the one-byte plaintext `[72]`. -/
theorem C8_deterministic_witness :
    XORKEY_of 3421 = XORKEY_of 3421 ∧
      Xor_string_mk 8 (XORKEY_of 3421) 1 (fun _ => 72) =
        Xor_string_mk 8 (XORKEY_of 3421) 1 (fun _ => 72) := by
  exact C8_deterministic 8 1 3421 3421 (fun _ => 72) (fun _ => 72) rfl (fun _ => rfl)

/-- Claim C9 (totality): for every seed and every rounds argument the
generator returns a value — bounded by `1013904223 + 0xFFFFFFFF`, so no
overflow or failure occurs — it bottoms out at `rounds = 0`, and for positive
rounds it satisfies the defining recurrence on `rounds - 1`. -/
theorem C9_lcg_total (seed rounds : Nat) :
    linear_congruent_generator seed rounds < 1013904223 + 0xFFFFFFFF ∧
      linear_congruent_generator seed 0 =
        (1013904223 + ((1664525 * seed) % 2 ^ 64) % 0xFFFFFFFF) % 2 ^ 64 ∧
      linear_congruent_generator seed (rounds + 1) =
        (1013904223 +
            ((1664525 * linear_congruent_generator seed rounds) % 2 ^ 64) %
              0xFFFFFFFF) % 2 ^ 64 := by
  refine ⟨?_, rfl, rfl⟩
  cases rounds with
  | zero => exact lcg_bound_aux (1664525 * seed)
  | succ n => exact lcg_bound_aux (1664525 * linear_congruent_generator seed n)

/-- Claim C10: the constructor's loop encrypts the terminator slot too: with a
`0` terminator at index `N - 1` the stored element there is
`(DerivedKey + (N - 1)) mod 2 ^ w`; it is nonzero whenever that residue is
nonzero, and the terminator reappears only because `decrypt()` overwrites
index `N - 1` with `'\0'`. -/
theorem C10_terminator_encrypted (w key N : Nat) (s : Fin N → Nat) (hN : 0 < N)
    (hterm : s ⟨N - 1, Nat.sub_lt hN Nat.one_pos⟩ = 0) :
    Xor_string_mk w key N s ⟨N - 1, Nat.sub_lt hN Nat.one_pos⟩ =
        (key + (N - 1)) % 2 ^ w ∧
      ((key + (N - 1)) % 2 ^ w ≠ 0 →
        Xor_string_mk w key N s ⟨N - 1, Nat.sub_lt hN Nat.one_pos⟩ ≠ 0) ∧
      Xor_string_decrypt w key N (Xor_string_mk w key N s)
          ⟨N - 1, Nat.sub_lt hN Nat.one_pos⟩ = 0 := by
  have hmk : Xor_string_mk w key N s ⟨N - 1, Nat.sub_lt hN Nat.one_pos⟩ =
      (key + (N - 1)) % 2 ^ w := by
    show encrypt_character w key (s ⟨N - 1, Nat.sub_lt hN Nat.one_pos⟩) (N - 1) = _
    rw [hterm, encrypt_character, Nat.zero_xor, mask_mod]
  refine ⟨hmk, fun hz => by rw [hmk]; exact hz, ?_⟩
  simp [Xor_string_decrypt]

/-- Witness for C10 at `w = 8`, `key = 184`, plaintext `[72, 0]`:
the stored terminator slot holds `(184 + 1) mod 256 = 185 ≠ 0`, and decrypt
restores `0` there. -/
theorem C10_terminator_encrypted_witness :
    Xor_string_mk 8 184 2 (fun i : Fin 2 => if (i : Nat) = 0 then 72 else 0) ⟨1, Nat.one_lt_two⟩ =
        (184 + 1) % 2 ^ 8 ∧
      ((184 + 1) % 2 ^ 8 ≠ 0 →
        Xor_string_mk 8 184 2 (fun i : Fin 2 => if (i : Nat) = 0 then 72 else 0) ⟨1, Nat.one_lt_two⟩ ≠ 0) ∧
      Xor_string_decrypt 8 184 2
          (Xor_string_mk 8 184 2 (fun i : Fin 2 => if (i : Nat) = 0 then 72 else 0)) ⟨1, Nat.one_lt_two⟩ = 0 := by
  exact C10_terminator_encrypted 8 184 2 (fun i : Fin 2 => if (i : Nat) = 0 then 72 else 0)
    Nat.zero_lt_two (by decide)

